import Mathlib

/-!
Verification of the bulk write pipeline of the RelevanceAI python client,
`BatchInsertClient._write_documents` in `relevanceai/api/batch/batch_insert.py`.

Modelling conventions.
A document is represented by its `_id` string: `_write_documents` reads no other
field of a document, and forwards the documents themselves only to the transport
(`insert_function`), which is a parameter of the model exactly as in the source.
The byte-size probe of the first document,
`sys.getsizeof(json.dumps(documents[0], indent=4)) * LIST_SIZE_MULTIPLIER / BYTE_TO_MB`,
depends only on the payload of `documents[0]` and is abstracted as a rational
parameter `doc_mb`; python floats are modelled as rationals, python ints as `Int`,
and `int(x)` on a float as truncation toward zero.  Configuration options read
through `self.config` are fields of a `Config` parameter.  `logger` calls and
`time.sleep` carry no data flow and are dropped.  The `bulk_fn is None` branch is
modelled (every claim concerns the classification loop shared by both branches).
The state fields `sent` and `calls` are ghost instrumentation: they record which
document ids were dispatched to the transport and how many transport invocations
were made, and no other field depends on them.
-/

namespace RelevanceAI

/-- Source constant `SUCCESS_CODES = [200]` (batch_insert.py line 37). -/
def SUCCESS_CODES : List Nat := [200]

/-- Source constant `RETRY_CODES = [400, 404]` (batch_insert.py line 38). -/
def RETRY_CODES : List Nat := [400, 404]

/-- Source constant `HALF_CHUNK_CODES = [413, 524]` (batch_insert.py line 39). -/
def HALF_CHUNK_CODES : List Nat := [413, 524]

/-- One entry of `response_json["failed_documents"]`: a mapping with an `_id`
field (`id` here) and opaque failure detail (`note`). -/
structure FailedDoc where
  id : String
  note : String
deriving DecidableEq, Repr

/-- The parsed body of one chunk-write response: `status_code`,
`response_json["inserted"]` and `response_json["failed_documents"]`.
A transport-level exception is modelled, following the spec's status-class
mapping ("anything else (including exceptions) → Transient"), as a response
whose `status_code` lies outside all recognised code lists. -/
structure WriteResp where
  status_code : Nat
  inserted : Nat
  failed_documents : List FailedDoc
deriving DecidableEq, Repr

/-- One element of `insert_json`: the result dictionary for one chunk, carrying
the chunk's own `documents` plus the transport response. -/
structure ChunkResult where
  documents : List String
  resp : WriteResp
deriving DecidableEq, Repr

/-- The configuration options `_write_documents` reads through `self.config`:
`upload.target_chunk_mb`, `upload.max_chunk_size`, `retries.number_of_retries`
(each passed through python `int(...)`; a negative retry count makes
`range(...)` empty, so it is modelled as `Nat`).
`retries.seconds_between_retries` only feeds `time.sleep` and is dropped. -/
structure Config where
  target_chunk_mb : Int
  max_chunk_size : Int
  number_of_retries : Nat
deriving DecidableEq, Repr

/-- The mutable local state of `_write_documents` between retry passes:
`documents`, `chunksize`, `inserted` (the list of per-chunk inserted counts),
`failed_ids`, `failed_ids_detailed`, `cancelled_ids`; plus the ghost fields
`sent` (every document id dispatched to the transport, in dispatch order,
with multiplicity) and `calls` (number of `insert_function` invocations). -/
structure WriteState where
  documents : List String
  chunksize : Int
  inserted : List Nat
  failed_ids : List String
  failed_ids_detailed : List FailedDoc
  cancelled_ids : List String
  sent : List String
  calls : Nat
deriving DecidableEq, Repr

/-- The dictionary `_write_documents` returns. -/
structure WriteOutput where
  inserted : Nat
  failed_documents : List String
  failed_documents_detailed : List FailedDoc
deriving DecidableEq, Repr

/-- Python `int(x)` on a float/rational: truncation toward zero. -/
def intTrunc (q : ℚ) : Int := if 0 ≤ q then ⌊q⌋ else ⌈q⌉

/-- Helper for `chunkList`, structurally recursive on a fuel bounded below by
the list length. -/
def chunkListAux (n : Nat) : Nat → List α → List (List α)
  | 0, _ => []
  | _ + 1, [] => []
  | fuel + 1, x :: xs => (x :: xs.take (n - 1)) :: chunkListAux n fuel (xs.drop (n - 1))

/-- Modelled from the spec: the chunk partition performed by the scheduler
(`multithread` in `relevanceai/concurrency.py`, a file not under src/) —
"Partition remaining documents into chunks of the current chunk size,
preserving original relative order."  A nonpositive size degenerates to
singleton chunks; no theorem below depends on the shape of that degenerate
case, only on the partition property `chunkList_flatten`. -/
def chunkList (n : Nat) (xs : List α) : List (List α) :=
  chunkListAux n xs.length xs

/-- Modelled from the spec: the scheduler (`multithread` in
`relevanceai/concurrency.py`, not under src/) — "Dispatch all chunk writes
concurrently via Scheduler, each producing a ChunkResult" with "one ChunkResult
per task"; each result dictionary carries the chunk's documents together with
the transport response for that chunk. -/
def multithread (insert_function : List String → WriteResp)
    (documents : List String) (chunksize : Int) : List ChunkResult :=
  (chunkList chunksize.toNat documents).map fun c => ⟨c, insert_function c⟩

/-- The accumulator of the `for chunk in insert_json` loop: the variables it
mutates (`failed_ids`, `failed_ids_detailed`, `cancelled_ids`, `chunksize`). -/
structure PassAcc where
  failed_ids : List String
  failed_ids_detailed : List FailedDoc
  cancelled_ids : List String
  chunksize : Int
deriving DecidableEq, Repr

/-- The body of the `for chunk in insert_json` loop of `_write_documents`
(batch_insert.py lines 1076-1099): status in `SUCCESS_CODES` accumulates the
response's own failed documents; status in `RETRY_CODES` cancels the chunk's
documents; status in `HALF_CHUNK_CODES` re-queues the chunk's documents and
multiplies `chunksize` by `retry_chunk_mult` truncated to int; any other
status re-queues the chunk's documents. -/
def classify (retry_chunk_mult : ℚ) (acc : PassAcc) (chunk : ChunkResult) : PassAcc :=
  if chunk.resp.status_code ∈ SUCCESS_CODES then
    { acc with
      failed_ids := acc.failed_ids ++ chunk.resp.failed_documents.map (·.id)
      failed_ids_detailed := acc.failed_ids_detailed ++ chunk.resp.failed_documents }
  else if chunk.resp.status_code ∈ RETRY_CODES then
    { acc with cancelled_ids := acc.cancelled_ids ++ chunk.documents }
  else if chunk.resp.status_code ∈ HALF_CHUNK_CODES then
    { acc with
      failed_ids := acc.failed_ids ++ chunk.documents
      chunksize := intTrunc ((acc.chunksize : ℚ) * retry_chunk_mult) }
  else
    { acc with failed_ids := acc.failed_ids ++ chunk.documents }

/-- One retry pass of `_write_documents` (the body of the
`if len(failed_ids) > 0` branch, batch_insert.py lines 1042-1104): dispatch the
current documents in chunks, extend `inserted` with the `inserted` counts of
the status-200 results, reset and rebuild `failed_ids` / `failed_ids_detailed`
/ `cancelled_ids` / `chunksize` through the classification loop, and keep only
the still-failing documents. -/
def runPass (insert_function : List String → WriteResp) (retry_chunk_mult : ℚ)
    (st : WriteState) : WriteState :=
  let insert_json := multithread insert_function st.documents st.chunksize
  let inserted := st.inserted ++
    ((insert_json.filter fun c => c.resp.status_code == 200).map fun c => c.resp.inserted)
  let acc := insert_json.foldl (classify retry_chunk_mult)
    ⟨[], [], st.cancelled_ids, st.chunksize⟩
  { documents := st.documents.filter fun d => decide (d ∈ acc.failed_ids)
    chunksize := acc.chunksize
    inserted := inserted
    failed_ids := acc.failed_ids
    failed_ids_detailed := acc.failed_ids_detailed
    cancelled_ids := acc.cancelled_ids
    sent := st.sent ++ st.documents
    calls := st.calls + insert_json.length }

/-- The bounded retry loop
`for i in range(int(config.get_option("retries.number_of_retries")))` of
`_write_documents`: run a pass while `failed_ids` is non-empty, `break` as soon
as it is empty.  The first argument is the pass index (the transport may behave
differently on different attempts), the second the remaining iteration budget. -/
def writeLoop (insert_function : Nat → List String → WriteResp)
    (retry_chunk_mult : ℚ) : Nat → Nat → WriteState → WriteState
  | _, 0, st => st
  | i, n + 1, st =>
    if st.failed_ids = [] then st
    else
      writeLoop insert_function retry_chunk_mult (i + 1) n
        (runPass (insert_function i) retry_chunk_mult st)

/-- The `chunksize == 0` auto-sizing of `_write_documents`
(batch_insert.py lines 1019-1027):
`chunksize = int(target_chunk_mb / doc_mb) + 1 if int(target_chunk_mb / doc_mb) + 1
< len(documents) else len(documents)` followed by
`chunksize = max(chunksize, max_chunk_size)`. -/
def initialChunksize (doc_mb : ℚ) (target_chunk_mb max_chunk_size : Int)
    (ndocs : Nat) : Int :=
  let base : Int := intTrunc ((target_chunk_mb : ℚ) / doc_mb) + 1
  let c : Int := if base < (ndocs : Int) then base else (ndocs : Int)
  max c max_chunk_size

/-- The final `WriteState` of a `_write_documents` run on non-empty input:
initial sizing (auto-probe when the caller passes `chunksize = 0`), then the
retry loop started from
`inserted = []`, `failed_ids = [i["_id"] for i in documents]`,
`failed_ids_detailed = []`, `cancelled_ids = []`. -/
def write_documents_final (insert_function : Nat → List String → WriteResp)
    (documents : List String) (doc_mb : ℚ) (cfg : Config)
    (retry_chunk_mult : ℚ) (chunksize : Int) : WriteState :=
  let cs : Int :=
    if chunksize = 0 then
      initialChunksize doc_mb cfg.target_chunk_mb cfg.max_chunk_size documents.length
    else chunksize
  writeLoop insert_function retry_chunk_mult 0 cfg.number_of_retries
    ⟨documents, cs, [], documents, [], [], [], 0⟩

/-- `BatchInsertClient._write_documents` (batch_insert.py lines 995-1119):
empty input returns the zero output at once; otherwise the retry loop runs and
the function returns `sum(inserted)`, `failed_ids` with `cancelled_ids`
extended onto its end, and `failed_ids_detailed`. -/
def write_documents (insert_function : Nat → List String → WriteResp)
    (documents : List String) (doc_mb : ℚ) (cfg : Config)
    (retry_chunk_mult : ℚ) (chunksize : Int) : WriteOutput :=
  if documents = [] then ⟨0, [], []⟩
  else
    let st := write_documents_final insert_function documents doc_mb cfg
      retry_chunk_mult chunksize
    ⟨st.inserted.sum, st.failed_ids ++ st.cancelled_ids, st.failed_ids_detailed⟩

/-- Ghost observation: the number of `insert_function` invocations a
`_write_documents` run performs (one per chunk dispatched). -/
def write_documents_calls (insert_function : Nat → List String → WriteResp)
    (documents : List String) (doc_mb : ℚ) (cfg : Config)
    (retry_chunk_mult : ℚ) (chunksize : Int) : Nat :=
  if documents = [] then 0
  else (write_documents_final insert_function documents doc_mb cfg
    retry_chunk_mult chunksize).calls

/-! ### The specification-side status classification

These definitions follow the spec's words ("Status-class mapping used by the
reference system: HTTP 200 → Success; HTTP 400/404 → GiveUp; HTTP 413/524 →
Overload; anything else (including exceptions) → Transient") and the per-class
actions of spec section 4.1 step 2c; the refinement theorems below compare the
source-translated loop against them. -/

/-- Spec status classes. -/
inductive StatusClass
  | success
  | giveUp
  | overload
  | transient
deriving DecidableEq, Repr

/-- Spec mapping from raw HTTP-like codes to status classes. -/
def statusClassOf (code : Nat) : StatusClass :=
  if code = 200 then .success
  else if code = 400 ∨ code = 404 then .giveUp
  else if code = 413 ∨ code = 524 then .overload
  else .transient

/-- Spec: the ids a single chunk result puts back into the retry set —
for Success the response's own failed-document ids, for GiveUp none,
for Overload and Transient every id of the chunk. -/
def chunkRetrySet (c : ChunkResult) : List String :=
  match statusClassOf c.resp.status_code with
  | .success => c.resp.failed_documents.map (·.id)
  | .giveUp => []
  | .overload => c.documents
  | .transient => c.documents

/-- Spec: the ids a single chunk result moves to the cancelled set —
every id of the chunk for GiveUp, none otherwise. -/
def chunkCancelSet (c : ChunkResult) : List String :=
  match statusClassOf c.resp.status_code with
  | .giveUp => c.documents
  | _ => []

/-- Spec: the detailed failure records a single chunk result contributes —
the response's failed-document records for Success, none otherwise. -/
def chunkDetail (c : ChunkResult) : List FailedDoc :=
  match statusClassOf c.resp.status_code with
  | .success => c.resp.failed_documents
  | _ => []

/-- Spec: the inserted count a single chunk result contributes. -/
def chunkInserted (c : ChunkResult) : Nat :=
  match statusClassOf c.resp.status_code with
  | .success => c.resp.inserted
  | _ => 0

/-- Well-formedness of a transport response for the chunk it answers (the
ChunkResult contract of spec section 3/6): a Success response accounts for
every document of the chunk exactly once — its written count plus its failed
records cover the chunk, its failed ids lie in the chunk and are distinct. -/
def RespOk (insert_function : List String → WriteResp) : Prop :=
  ∀ chunk : List String,
    (insert_function chunk).status_code = 200 →
      (insert_function chunk).inserted
          + (insert_function chunk).failed_documents.length = chunk.length ∧
      (∀ f ∈ (insert_function chunk).failed_documents, f.id ∈ chunk) ∧
      ((insert_function chunk).failed_documents.map (·.id)).Nodup

/-- Well-formedness of a pass-indexed transport. -/
def RespOkAll (insert_function : Nat → List String → WriteResp) : Prop :=
  ∀ i, RespOk (insert_function i)

/-- The loop invariant of `_write_documents` relative to the original document
id list `D0`: the current documents are distinct and are exactly (up to
permutation) the current `failed_ids`; `cancelled_ids` are distinct, disjoint
from `failed_ids`, and both live inside `D0`; and the bookkeeping is
conservative — inserted counts plus retry set plus cancelled set cover `D0`. -/
def LoopInv (D0 : List String) (st : WriteState) : Prop :=
  st.documents.Nodup ∧
  st.documents.Perm st.failed_ids ∧
  st.cancelled_ids.Nodup ∧
  (∀ x ∈ st.cancelled_ids, x ∉ st.failed_ids) ∧
  (∀ x ∈ st.failed_ids, x ∈ D0) ∧
  (∀ x ∈ st.cancelled_ids, x ∈ D0) ∧
  st.inserted.sum + st.failed_ids.length + st.cancelled_ids.length = D0.length

/-! ### Basic lemmas about the chunk partition -/

theorem chunkListAux_flatten (n : Nat) :
    ∀ (fuel : Nat) (xs : List α), xs.length ≤ fuel →
      (chunkListAux n fuel xs).flatten = xs := by
  intro fuel
  induction fuel with
  | zero =>
    intro xs h
    cases xs with
    | nil => rfl
    | cons x xs => simp at h
  | succ fuel ih =>
    intro xs h
    cases xs with
    | nil => rfl
    | cons x xs =>
      simp only [chunkListAux, List.flatten_cons]
      rw [ih (xs.drop (n - 1)) ?_, List.cons_append, List.take_append_drop]
      have := List.length_drop (n - 1) xs
      simp only [List.length_cons] at h
      omega

theorem chunkList_flatten (n : Nat) (xs : List α) :
    (chunkList n xs).flatten = xs :=
  chunkListAux_flatten n xs.length xs le_rfl

/-! ### Status-class bridges between the source code lists and the spec map -/

theorem statusClassOf_success {code : Nat} :
    statusClassOf code = .success ↔ code = 200 := by
  unfold statusClassOf
  split_ifs with h1 h2 h3 <;> simp_all

theorem statusClassOf_giveUp {code : Nat} :
    statusClassOf code = .giveUp ↔ code = 400 ∨ code = 404 := by
  unfold statusClassOf
  split_ifs with h1 h2 h3 <;> simp_all <;> omega

theorem statusClassOf_overload {code : Nat} :
    statusClassOf code = .overload ↔ code = 413 ∨ code = 524 := by
  unfold statusClassOf
  split_ifs with h1 h2 h3 <;> simp_all <;> omega

/-- A single step of the chunk-size update: on an Overload-class result apply
`int(chunksize * retry_chunk_mult)`, otherwise leave it unchanged. -/
def shrinkStep (retry_chunk_mult : ℚ) (cs : Int) : Int :=
  intTrunc ((cs : ℚ) * retry_chunk_mult)

/-- The chunk-size effect of one classified chunk result. -/
def chunkSizeStep (retry_chunk_mult : ℚ) (c : ChunkResult) (cs : Int) : Int :=
  match statusClassOf c.resp.status_code with
  | .overload => shrinkStep retry_chunk_mult cs
  | _ => cs

theorem classify_eq (m : ℚ) (acc : PassAcc) (c : ChunkResult) :
    classify m acc c =
      ⟨acc.failed_ids ++ chunkRetrySet c,
       acc.failed_ids_detailed ++ chunkDetail c,
       acc.cancelled_ids ++ chunkCancelSet c,
       chunkSizeStep m c acc.chunksize⟩ := by
  unfold classify chunkRetrySet chunkDetail chunkCancelSet chunkSizeStep shrinkStep
    statusClassOf SUCCESS_CODES RETRY_CODES HALF_CHUNK_CODES
  by_cases h1 : c.resp.status_code = 200 <;>
    by_cases h2 : c.resp.status_code = 400 ∨ c.resp.status_code = 404 <;>
      by_cases h3 : c.resp.status_code = 413 ∨ c.resp.status_code = 524 <;>
        simp_all <;> omega

theorem foldl_classify_eq (m : ℚ) (J : List ChunkResult) :
    ∀ acc : PassAcc,
      J.foldl (classify m) acc =
        ⟨acc.failed_ids ++ J.flatMap chunkRetrySet,
         acc.failed_ids_detailed ++ J.flatMap chunkDetail,
         acc.cancelled_ids ++ J.flatMap chunkCancelSet,
         J.foldl (fun cs c => chunkSizeStep m c cs) acc.chunksize⟩ := by
  induction J with
  | nil => intro acc; simp
  | cons c J ih =>
    intro acc
    rw [List.foldl_cons, classify_eq, ih]
    simp

theorem foldl_chunkSizeStep (m : ℚ) (J : List ChunkResult) :
    ∀ cs : Int,
      J.foldl (fun cs c => chunkSizeStep m c cs) cs =
        (shrinkStep m)^[J.countP
          fun c => decide (statusClassOf c.resp.status_code = .overload)] cs := by
  induction J with
  | nil => intro cs; simp
  | cons c J ih =>
    intro cs
    rw [List.foldl_cons, List.countP_cons]
    have hc : chunkSizeStep m c cs =
        if statusClassOf c.resp.status_code = .overload then shrinkStep m cs else cs := by
      unfold chunkSizeStep
      cases hs : statusClassOf c.resp.status_code <;> simp_all
    by_cases h : statusClassOf c.resp.status_code = .overload
    · simp [hc, h, ih, Function.iterate_succ_apply]
    · simp [hc, h, ih]

/-- Closed form of one retry pass. -/
theorem runPass_eq (t : List String → WriteResp) (m : ℚ) (st : WriteState) :
    runPass t m st =
      { documents := st.documents.filter fun d =>
          decide (d ∈ (multithread t st.documents st.chunksize).flatMap chunkRetrySet)
        chunksize := (shrinkStep m)^[(multithread t st.documents st.chunksize).countP
          fun c => decide (statusClassOf c.resp.status_code = .overload)] st.chunksize
        inserted := st.inserted ++
          (((multithread t st.documents st.chunksize).filter
              fun c => c.resp.status_code == 200).map fun c => c.resp.inserted)
        failed_ids := (multithread t st.documents st.chunksize).flatMap chunkRetrySet
        failed_ids_detailed :=
          (multithread t st.documents st.chunksize).flatMap chunkDetail
        cancelled_ids := st.cancelled_ids ++
          (multithread t st.documents st.chunksize).flatMap chunkCancelSet
        sent := st.sent ++ st.documents
        calls := st.calls + (multithread t st.documents st.chunksize).length } := by
  simp only [runPass]
  rw [foldl_classify_eq, foldl_chunkSizeStep]
  simp

/-! ### Facts about the dispatched chunk results -/

theorem multithread_map_documents (t : List String → WriteResp)
    (docs : List String) (cs : Int) :
    (multithread t docs cs).map ChunkResult.documents = chunkList cs.toNat docs := by
  simp only [multithread, List.map_map]
  exact List.map_id _

theorem multithread_flatMap_documents (t : List String → WriteResp)
    (docs : List String) (cs : Int) :
    (multithread t docs cs).flatMap ChunkResult.documents = docs := by
  rw [List.flatMap_def, multithread_map_documents]
  exact chunkList_flatten _ _

theorem multithread_mem {t : List String → WriteResp} {docs : List String}
    {cs : Int} {c : ChunkResult} (h : c ∈ multithread t docs cs) :
    c.resp = t c.documents ∧ c.documents ∈ chunkList cs.toNat docs := by
  rcases List.mem_map.mp h with ⟨ch, hch, rfl⟩
  exact ⟨rfl, hch⟩

/-- A distinct document list yields distinct, pairwise disjoint chunks. -/
theorem chunkList_nodup_parts {docs : List String} (h : docs.Nodup) (n : Nat) :
    (∀ l ∈ chunkList n docs, l.Nodup) ∧
      (chunkList n docs).Pairwise List.Disjoint := by
  have hfl : (chunkList n docs).flatten.Nodup := by
    rw [chunkList_flatten]; exact h
  exact List.nodup_flatten.mp hfl

theorem multithread_pairwise_disjoint {t : List String → WriteResp}
    {docs : List String} (h : docs.Nodup) (cs : Int) :
    ((multithread t docs cs).map ChunkResult.documents).Pairwise List.Disjoint := by
  rw [multithread_map_documents]
  exact (chunkList_nodup_parts h cs.toNat).2

theorem multithread_chunk_nodup {t : List String → WriteResp}
    {docs : List String} (h : docs.Nodup) {cs : Int} {c : ChunkResult}
    (hc : c ∈ multithread t docs cs) : c.documents.Nodup :=
  (chunkList_nodup_parts h cs.toNat).1 c.documents (multithread_mem hc).2

/-! ### Generic lemmas about per-chunk contributions -/

/-- If each chunk contributes a distinct sublist of its own (pairwise disjoint)
documents, the concatenated contribution is distinct. -/
theorem flatMap_nodup {J : List ChunkResult} {g : ChunkResult → List String}
    (hsub : ∀ c ∈ J, ∀ x ∈ g c, x ∈ c.documents)
    (hnd : ∀ c ∈ J, (g c).Nodup)
    (hdisj : (J.map ChunkResult.documents).Pairwise List.Disjoint) :
    (J.flatMap g).Nodup := by
  induction J with
  | nil => simp
  | cons c J ih =>
    rw [List.flatMap_cons, List.nodup_append]
    rw [List.map_cons, List.pairwise_cons] at hdisj
    refine ⟨hnd c (by simp), ?_, ?_⟩
    · exact ih (fun c' h' => hsub c' (by simp [h'])) (fun c' h' => hnd c' (by simp [h']))
        hdisj.2
    · intro x hx hx'
      rcases List.mem_flatMap.mp hx' with ⟨c', hc', hx''⟩
      exact hdisj.1 c'.documents (List.mem_map_of_mem _ hc')
        (hsub c (by simp) x hx) (hsub c' (by simp [hc']) x hx'')

/-- Contributions drawn from distinct chunks through two mutually exclusive
selectors are disjoint. -/
theorem flatMap_disjoint {J : List ChunkResult} {g h : ChunkResult → List String}
    (hsubg : ∀ c ∈ J, ∀ x ∈ g c, x ∈ c.documents)
    (hsubh : ∀ c ∈ J, ∀ x ∈ h c, x ∈ c.documents)
    (hexcl : ∀ c, g c = [] ∨ h c = [])
    (hdisj : (J.map ChunkResult.documents).Pairwise List.Disjoint) :
    ∀ x ∈ J.flatMap g, x ∉ J.flatMap h := by
  induction J with
  | nil => simp
  | cons c J ih =>
    rw [List.map_cons, List.pairwise_cons] at hdisj
    intro x hx hx'
    rw [List.flatMap_cons, List.mem_append] at hx hx'
    rcases hx with hx | hx
    · rcases hx' with hx' | hx'
      · rcases hexcl c with he | he <;> simp [he] at hx hx'
      · rcases List.mem_flatMap.mp hx' with ⟨c', hc', hx''⟩
        exact hdisj.1 c'.documents (List.mem_map_of_mem _ hc')
          (hsubg c (by simp) x hx) (hsubh c' (by simp [hc']) x hx'')
    · rcases hx' with hx' | hx'
      · rcases List.mem_flatMap.mp hx with ⟨c', hc', hx''⟩
        exact hdisj.1 c'.documents (List.mem_map_of_mem _ hc')
          (hsubh c (by simp) x hx') (hsubg c' (by simp [hc']) x hx'')
      · exact ih (fun c' h' => hsubg c' (by simp [h']))
          (fun c' h' => hsubh c' (by simp [h'])) hdisj.2 x hx hx'

/-! ### Per-chunk contribution facts -/

theorem chunkRetrySet_success {c : ChunkResult}
    (h : statusClassOf c.resp.status_code = .success) :
    chunkRetrySet c = c.resp.failed_documents.map (·.id) := by
  unfold chunkRetrySet; rw [h]

theorem chunkRetrySet_giveUp {c : ChunkResult}
    (h : statusClassOf c.resp.status_code = .giveUp) :
    chunkRetrySet c = [] := by
  unfold chunkRetrySet; rw [h]

theorem chunkRetrySet_overload {c : ChunkResult}
    (h : statusClassOf c.resp.status_code = .overload) :
    chunkRetrySet c = c.documents := by
  unfold chunkRetrySet; rw [h]

theorem chunkRetrySet_transient {c : ChunkResult}
    (h : statusClassOf c.resp.status_code = .transient) :
    chunkRetrySet c = c.documents := by
  unfold chunkRetrySet; rw [h]

theorem chunkCancelSet_giveUp {c : ChunkResult}
    (h : statusClassOf c.resp.status_code = .giveUp) :
    chunkCancelSet c = c.documents := by
  unfold chunkCancelSet; rw [h]

theorem chunkCancelSet_not_giveUp {c : ChunkResult}
    (h : statusClassOf c.resp.status_code ≠ .giveUp) :
    chunkCancelSet c = [] := by
  unfold chunkCancelSet
  rcases hs : statusClassOf c.resp.status_code with _ | _ | _ | _ <;> simp_all

theorem chunkDetail_success {c : ChunkResult}
    (h : statusClassOf c.resp.status_code = .success) :
    chunkDetail c = c.resp.failed_documents := by
  unfold chunkDetail; rw [h]

theorem chunkDetail_not_success {c : ChunkResult}
    (h : statusClassOf c.resp.status_code ≠ .success) :
    chunkDetail c = [] := by
  unfold chunkDetail
  rcases hs : statusClassOf c.resp.status_code with _ | _ | _ | _ <;> simp_all

theorem chunkInserted_success {c : ChunkResult}
    (h : statusClassOf c.resp.status_code = .success) :
    chunkInserted c = c.resp.inserted := by
  unfold chunkInserted; rw [h]

theorem chunkInserted_not_success {c : ChunkResult}
    (h : statusClassOf c.resp.status_code ≠ .success) :
    chunkInserted c = 0 := by
  unfold chunkInserted
  rcases hs : statusClassOf c.resp.status_code with _ | _ | _ | _ <;> simp_all

theorem chunkRetrySet_subset {t : List String → WriteResp} (hok : RespOk t)
    {c : ChunkResult} (hc : c.resp = t c.documents) :
    ∀ x ∈ chunkRetrySet c, x ∈ c.documents := by
  intro x hx
  rcases hs : statusClassOf c.resp.status_code with _ | _ | _ | _
  · rw [chunkRetrySet_success hs] at hx
    rcases List.mem_map.mp hx with ⟨f, hf, rfl⟩
    have h200 : c.resp.status_code = 200 := statusClassOf_success.mp hs
    rw [hc] at h200 hf
    exact (hok c.documents h200).2.1 f hf
  · rw [chunkRetrySet_giveUp hs] at hx
    cases hx
  · rw [chunkRetrySet_overload hs] at hx
    exact hx
  · rw [chunkRetrySet_transient hs] at hx
    exact hx

theorem chunkRetrySet_nodup {t : List String → WriteResp} (hok : RespOk t)
    {c : ChunkResult} (hc : c.resp = t c.documents) (hnd : c.documents.Nodup) :
    (chunkRetrySet c).Nodup := by
  rcases hs : statusClassOf c.resp.status_code with _ | _ | _ | _
  · rw [chunkRetrySet_success hs]
    have h200 : c.resp.status_code = 200 := statusClassOf_success.mp hs
    rw [hc] at h200 ⊢
    exact (hok c.documents h200).2.2
  · rw [chunkRetrySet_giveUp hs]; exact List.nodup_nil
  · rw [chunkRetrySet_overload hs]; exact hnd
  · rw [chunkRetrySet_transient hs]; exact hnd

theorem chunkCancelSet_subset (c : ChunkResult) :
    ∀ x ∈ chunkCancelSet c, x ∈ c.documents := by
  intro x hx
  by_cases hs : statusClassOf c.resp.status_code = .giveUp
  · rw [chunkCancelSet_giveUp hs] at hx
    exact hx
  · rw [chunkCancelSet_not_giveUp hs] at hx
    cases hx

theorem chunkCancelSet_nodup {c : ChunkResult} (hnd : c.documents.Nodup) :
    (chunkCancelSet c).Nodup := by
  by_cases hs : statusClassOf c.resp.status_code = .giveUp
  · rw [chunkCancelSet_giveUp hs]; exact hnd
  · rw [chunkCancelSet_not_giveUp hs]; exact List.nodup_nil

theorem chunkRetry_cancel_excl (c : ChunkResult) :
    chunkRetrySet c = [] ∨ chunkCancelSet c = [] := by
  by_cases hs : statusClassOf c.resp.status_code = .giveUp
  · exact Or.inl (chunkRetrySet_giveUp hs)
  · exact Or.inr (chunkCancelSet_not_giveUp hs)

theorem chunkInserted_eq (c : ChunkResult) :
    chunkInserted c = if c.resp.status_code = 200 then c.resp.inserted else 0 := by
  by_cases h : c.resp.status_code = 200
  · rw [if_pos h, chunkInserted_success (statusClassOf_success.mpr h)]
  · rw [if_neg h, chunkInserted_not_success (fun hs => h (statusClassOf_success.mp hs))]

/-- Every document of a well-answered chunk is accounted exactly once by the
classification of its result. -/
theorem chunk_count {t : List String → WriteResp} (hok : RespOk t)
    {c : ChunkResult} (hc : c.resp = t c.documents) :
    chunkInserted c + (chunkRetrySet c).length + (chunkCancelSet c).length
      = c.documents.length := by
  rcases hs : statusClassOf c.resp.status_code with _ | _ | _ | _
  · rw [chunkInserted_success hs, chunkRetrySet_success hs,
      chunkCancelSet_not_giveUp (by rw [hs]; intro h; cases h)]
    have h200 : c.resp.status_code = 200 := statusClassOf_success.mp hs
    rw [hc] at h200
    have := (hok c.documents h200).1
    rw [hc]
    simp only [List.length_map, List.length_nil]
    omega
  · rw [chunkInserted_not_success (by rw [hs]; intro h; cases h),
      chunkRetrySet_giveUp hs, chunkCancelSet_giveUp hs]
    simp
  · rw [chunkInserted_not_success (by rw [hs]; intro h; cases h),
      chunkRetrySet_overload hs,
      chunkCancelSet_not_giveUp (by rw [hs]; intro h; cases h)]
    simp
  · rw [chunkInserted_not_success (by rw [hs]; intro h; cases h),
      chunkRetrySet_transient hs,
      chunkCancelSet_not_giveUp (by rw [hs]; intro h; cases h)]
    simp

theorem inserted_sum_eq (J : List ChunkResult) :
    ((J.filter fun c => c.resp.status_code == 200).map fun c => c.resp.inserted).sum
      = (J.map chunkInserted).sum := by
  induction J with
  | nil => rfl
  | cons c J ih =>
    by_cases h : c.resp.status_code = 200
    · rw [List.filter_cons_of_pos (by simp [h]), List.map_cons, List.sum_cons, ih,
        List.map_cons, List.sum_cons, chunkInserted_eq, if_pos h]
    · rw [List.filter_cons_of_neg (by simp [h]), ih, List.map_cons, List.sum_cons,
        chunkInserted_eq, if_neg h, Nat.zero_add]

theorem flatMap_counts {J : List ChunkResult}
    (hcount : ∀ c ∈ J, chunkInserted c + (chunkRetrySet c).length
      + (chunkCancelSet c).length = c.documents.length) :
    (J.map chunkInserted).sum + (J.flatMap chunkRetrySet).length
        + (J.flatMap chunkCancelSet).length
      = (J.flatMap ChunkResult.documents).length := by
  induction J with
  | nil => simp
  | cons c J ih =>
    simp only [List.map_cons, List.sum_cons, List.flatMap_cons, List.length_append]
    have hc := hcount c (by simp)
    have hJ := ih fun c' h' => hcount c' (by simp [h'])
    omega

/-! ### The loop invariant is preserved by a pass -/

theorem runPass_inv {t : List String → WriteResp} {m : ℚ} {D0 : List String}
    {st : WriteState} (hok : RespOk t) (hinv : LoopInv D0 st) :
    LoopInv D0 (runPass t m st) := by
  obtain ⟨hnd, hperm, hcnd, hdisj, hfD0, hcD0, hsum⟩ := hinv
  rw [runPass_eq]
  set J := multithread t st.documents st.chunksize with hJ
  have hmem : ∀ c ∈ J, c.resp = t c.documents := fun c hc => (multithread_mem hc).1
  have hcnodup : ∀ c ∈ J, c.documents.Nodup := fun c hc =>
    multithread_chunk_nodup hnd hc
  have hpw : (J.map ChunkResult.documents).Pairwise List.Disjoint :=
    multithread_pairwise_disjoint hnd _
  have hsubR : ∀ c ∈ J, ∀ x ∈ chunkRetrySet c, x ∈ c.documents :=
    fun c hc => chunkRetrySet_subset hok (hmem c hc)
  have hsubC : ∀ c ∈ J, ∀ x ∈ chunkCancelSet c, x ∈ c.documents :=
    fun c _ => chunkCancelSet_subset c
  have hndR : (J.flatMap chunkRetrySet).Nodup :=
    flatMap_nodup hsubR
      (fun c hc => chunkRetrySet_nodup hok (hmem c hc) (hcnodup c hc)) hpw
  have hndC : (J.flatMap chunkCancelSet).Nodup :=
    flatMap_nodup hsubC (fun c hc => chunkCancelSet_nodup (hcnodup c hc)) hpw
  have hRdocs : ∀ x ∈ J.flatMap chunkRetrySet, x ∈ st.documents := by
    intro x hx
    rcases List.mem_flatMap.mp hx with ⟨c, hc, hx'⟩
    rw [← multithread_flatMap_documents t st.documents st.chunksize]
    exact List.mem_flatMap.mpr ⟨c, hc, hsubR c hc x hx'⟩
  have hCdocs : ∀ x ∈ J.flatMap chunkCancelSet, x ∈ st.documents := by
    intro x hx
    rcases List.mem_flatMap.mp hx with ⟨c, hc, hx'⟩
    rw [← multithread_flatMap_documents t st.documents st.chunksize]
    exact List.mem_flatMap.mpr ⟨c, hc, hsubC c hc x hx'⟩
  have hCR : ∀ x ∈ J.flatMap chunkCancelSet, x ∉ J.flatMap chunkRetrySet :=
    flatMap_disjoint hsubC hsubR (fun c => (chunkRetry_cancel_excl c).symm) hpw
  have hfilter_mem : ∀ x,
      (x ∈ st.documents.filter fun d => decide (d ∈ J.flatMap chunkRetrySet)) ↔
        x ∈ J.flatMap chunkRetrySet := by
    intro x
    rw [List.mem_filter, decide_eq_true_iff]
    exact ⟨fun h => h.2, fun h => ⟨hRdocs x h, h⟩⟩
  refine ⟨?_, ?_, ?_, ?_, ?_, ?_, ?_⟩
  · exact hnd.filter _
  · apply List.perm_of_nodup_nodup_toFinset_eq (hnd.filter _) hndR
    ext a
    simp only [List.mem_toFinset]
    exact hfilter_mem a
  · rw [List.nodup_append]
    refine ⟨hcnd, hndC, ?_⟩
    intro x hx hx'
    exact hdisj x hx (hperm.mem_iff.mp (hCdocs x hx'))
  · intro x hx
    rcases List.mem_append.mp hx with hx | hx
    · intro hx'
      exact hdisj x hx (hperm.mem_iff.mp (hRdocs x hx'))
    · exact hCR x hx
  · intro x hx
    exact hfD0 x (hperm.mem_iff.mp (hRdocs x hx))
  · intro x hx
    rcases List.mem_append.mp hx with hx | hx
    · exact hcD0 x hx
    · exact hfD0 x (hperm.mem_iff.mp (hCdocs x hx))
  · have hcnt : (J.map chunkInserted).sum + (J.flatMap chunkRetrySet).length
        + (J.flatMap chunkCancelSet).length = st.documents.length := by
      rw [flatMap_counts fun c hc => chunk_count hok (hmem c hc)]
      rw [multithread_flatMap_documents]
    have hlen : st.documents.length = st.failed_ids.length := hperm.length_eq
    simp only [List.sum_append, List.length_append, inserted_sum_eq]
    omega

/-! ### Loop-level lemmas -/

theorem writeLoop_stop {t : Nat → List String → WriteResp} {m : ℚ} {i n : Nat}
    {st : WriteState} (h : st.failed_ids = []) : writeLoop t m i n st = st := by
  cases n with
  | zero => rfl
  | succ n => rw [writeLoop, if_pos h]

theorem writeLoop_succ_last (t : Nat → List String → WriteResp) (m : ℚ) :
    ∀ (n i : Nat) (st : WriteState),
      writeLoop t m i (n + 1) st =
        if (writeLoop t m i n st).failed_ids = [] then writeLoop t m i n st
        else runPass (t (i + n)) m (writeLoop t m i n st) := by
  intro n
  induction n with
  | zero =>
    intro i st
    show (if st.failed_ids = [] then st
      else writeLoop t m (i + 1) 0 (runPass (t i) m st)) = _
    by_cases h : st.failed_ids = []
    · rw [if_pos h]
      show st = if st.failed_ids = [] then st else _
      rw [if_pos h]
    · rw [if_neg h]
      show runPass (t i) m st = if st.failed_ids = [] then st else _
      rw [if_neg h, Nat.add_zero]
      rfl
  | succ n ih =>
    intro i st
    by_cases h : st.failed_ids = []
    · rw [writeLoop_stop h, writeLoop_stop h, if_pos h]
    · have hl : writeLoop t m i (n + 1 + 1) st =
          writeLoop t m (i + 1) (n + 1) (runPass (t i) m st) := by
        rw [writeLoop, if_neg h]
      have hr : writeLoop t m i (n + 1) st =
          writeLoop t m (i + 1) n (runPass (t i) m st) := by
        rw [writeLoop, if_neg h]
      rw [hl, hr, ih (i + 1), Nat.add_assoc, Nat.add_comm 1 n]

theorem writeLoop_add (t : Nat → List String → WriteResp) (m : ℚ) :
    ∀ (a b i : Nat) (st : WriteState),
      writeLoop t m i (a + b) st =
        writeLoop t m (i + a) b (writeLoop t m i a st) := by
  intro a
  induction a with
  | zero =>
    intro b i st
    rw [Nat.zero_add, Nat.add_zero]
    rfl
  | succ a ih =>
    intro b i st
    by_cases h : st.failed_ids = []
    · rw [writeLoop_stop h, writeLoop_stop h, writeLoop_stop h]
    · have hl : writeLoop t m i (a + 1 + b) st =
          writeLoop t m (i + 1) (a + b) (runPass (t i) m st) := by
        rw [show a + 1 + b = (a + b) + 1 from by omega, writeLoop, if_neg h]
      have hr : writeLoop t m i (a + 1) st =
          writeLoop t m (i + 1) a (runPass (t i) m st) := by
        rw [writeLoop, if_neg h]
      rw [hl, hr, ih b (i + 1), show i + 1 + a = i + (a + 1) from by omega]

theorem writeLoop_inv {t : Nat → List String → WriteResp} {m : ℚ}
    {D0 : List String} (hok : RespOkAll t) :
    ∀ (n i : Nat) (st : WriteState), LoopInv D0 st →
      LoopInv D0 (writeLoop t m i n st) := by
  intro n
  induction n with
  | zero => intro i st h; exact h
  | succ n ih =>
    intro i st h
    by_cases hf : st.failed_ids = []
    · rw [writeLoop_stop hf]; exact h
    · rw [writeLoop, if_neg hf]
      exact ih (i + 1) _ (runPass_inv (hok i) h)

/-! ### Shared helpers for the claim theorems -/

theorem write_documents_eq {t : Nat → List String → WriteResp}
    {documents : List String} {doc_mb : ℚ} {cfg : Config} {m : ℚ} {cs : Int}
    (hne : documents ≠ []) :
    write_documents t documents doc_mb cfg m cs =
      ⟨(write_documents_final t documents doc_mb cfg m cs).inserted.sum,
       (write_documents_final t documents doc_mb cfg m cs).failed_ids
         ++ (write_documents_final t documents doc_mb cfg m cs).cancelled_ids,
       (write_documents_final t documents doc_mb cfg m cs).failed_ids_detailed⟩ := by
  unfold write_documents
  rw [if_neg hne]

theorem write_documents_final_inv {t : Nat → List String → WriteResp}
    {documents : List String} {doc_mb : ℚ} {cfg : Config} {m : ℚ} {cs : Int}
    (hnd : documents.Nodup) (hok : RespOkAll t) :
    LoopInv documents (write_documents_final t documents doc_mb cfg m cs) := by
  unfold write_documents_final
  apply writeLoop_inv hok
  refine ⟨hnd, List.Perm.refl _, List.nodup_nil, ?_, ?_, ?_, ?_⟩ <;> simp

/-- C1: for every non-empty input document list with distinct string
identifiers and every transport honouring the per-chunk response contract,
when `_write_documents` returns, the total inserted count plus the number of
ids in `failed_documents` (which includes the cancelled ids) equals the size
of the original input id set, the returned `failed_documents` list holds no id
twice, and every id in it comes from the input — no id double counted, none
lost. -/
theorem c1_conservation (t : Nat → List String → WriteResp)
    (documents : List String) (doc_mb : ℚ) (cfg : Config) (m : ℚ) (cs : Int)
    (hne : documents ≠ []) (hnd : documents.Nodup) (hok : RespOkAll t) :
    (write_documents t documents doc_mb cfg m cs).inserted
        + (write_documents t documents doc_mb cfg m cs).failed_documents.length
      = documents.length ∧
    (write_documents t documents doc_mb cfg m cs).failed_documents.Nodup ∧
    (∀ x ∈ (write_documents t documents doc_mb cfg m cs).failed_documents,
      x ∈ documents) := by
  rw [write_documents_eq hne]
  obtain ⟨hdnd, hperm, hcnd, hdisj, hfD0, hcD0, hsum⟩ :=
    @write_documents_final_inv t documents doc_mb cfg m cs hnd hok
  refine ⟨?_, ?_, ?_⟩
  · simp only [List.length_append]
    omega
  · rw [List.nodup_append]
    exact ⟨(hperm.nodup_iff).mp hdnd, hcnd, fun x hx hx' => hdisj x hx' hx⟩
  · intro x hx
    rcases List.mem_append.mp hx with hx | hx
    · exact hfD0 x hx
    · exact hcD0 x hx

theorem c1_conservation_witness :
    ((["a", "b"] : List String) ≠ [] ∧ (["a", "b"] : List String).Nodup ∧
      RespOkAll fun _ c => ⟨200, c.length, []⟩) ∧
    ((write_documents (fun _ c => ⟨200, c.length, []⟩) ["a", "b"] 1 ⟨16, 3, 3⟩
          (1/2) 0).inserted
        + (write_documents (fun _ c => ⟨200, c.length, []⟩) ["a", "b"] 1 ⟨16, 3, 3⟩
          (1/2) 0).failed_documents.length
      = (["a", "b"] : List String).length ∧
    (write_documents (fun _ c => ⟨200, c.length, []⟩) ["a", "b"] 1 ⟨16, 3, 3⟩
      (1/2) 0).failed_documents.Nodup ∧
    (∀ x ∈ (write_documents (fun _ c => ⟨200, c.length, []⟩) ["a", "b"] 1
        ⟨16, 3, 3⟩ (1/2) 0).failed_documents,
      x ∈ (["a", "b"] : List String))) := by
  have hok : RespOkAll (fun (_ : Nat) (c : List String) =>
      (⟨200, c.length, []⟩ : WriteResp)) :=
    fun i chunk h => ⟨by simp, by simp, by simp⟩
  exact ⟨⟨by decide, by decide, hok⟩,
    c1_conservation _ ["a", "b"] 1 ⟨16, 3, 3⟩ (1/2) 0 (by decide) (by decide) hok⟩

/-- C7: for the empty input list `_write_documents` returns
`{inserted: 0, failed_documents: [], failed_documents_detailed: []}`
immediately, whatever the transport, configuration, multiplier or chunk size,
and performs no transport (`insert_function`) call at all. -/
theorem c7_empty_input (t : Nat → List String → WriteResp) (doc_mb : ℚ)
    (cfg : Config) (m : ℚ) (cs : Int) :
    write_documents t [] doc_mb cfg m cs = ⟨0, [], []⟩ ∧
    write_documents_calls t [] doc_mb cfg m cs = 0 := by
  exact ⟨rfl, rfl⟩

/-- C6: in every run of `_write_documents`, once the retry set becomes empty
the loop stops before exhausting the retry bound — the state reached after `k`
passes is final for every larger bound — and no further transport calls are
made; in particular running the retry loop from a state whose failing set is
already empty returns it unchanged with zero additional transport calls. -/
theorem c6_empty_retry_stops (t : Nat → List String → WriteResp) (m : ℚ) :
    (∀ (i n : Nat) (st : WriteState), st.failed_ids = [] →
      writeLoop t m i n st = st ∧ (writeLoop t m i n st).calls = st.calls) ∧
    (∀ (k n : Nat) (st : WriteState), k ≤ n →
      (writeLoop t m 0 k st).failed_ids = [] →
      writeLoop t m 0 n st = writeLoop t m 0 k st) := by
  constructor
  · intro i n st h
    rw [writeLoop_stop h]
    exact ⟨rfl, rfl⟩
  · intro k n st hkn h
    rw [show n = k + (n - k) from by omega, writeLoop_add, Nat.zero_add,
      writeLoop_stop h]

theorem c6_empty_retry_stops_witness :
    ((⟨["a"], 5, [3], [], [], [], ["a"], 1⟩ : WriteState).failed_ids = [] ∧
      writeLoop (fun _ c => ⟨500, 0, []⟩) (1/2) 0 7
          ⟨["a"], 5, [3], [], [], [], ["a"], 1⟩
        = ⟨["a"], 5, [3], [], [], [], ["a"], 1⟩ ∧
      (writeLoop (fun _ c => ⟨500, 0, []⟩) (1/2) 0 7
          ⟨["a"], 5, [3], [], [], [], ["a"], 1⟩).calls = 1) := by
  refine ⟨rfl, ?_, ?_⟩
  · exact ((c6_empty_retry_stops (fun _ c => ⟨500, 0, []⟩) (1/2)).1 0 7
      ⟨["a"], 5, [3], [], [], [], ["a"], 1⟩ rfl).1
  · exact ((c6_empty_retry_stops (fun _ c => ⟨500, 0, []⟩) (1/2)).1 0 7
      ⟨["a"], 5, [3], [], [], [], ["a"], 1⟩ rfl).2

/-! ### C3: a permanently transient transport -/

theorem flatMap_congr_mem {J : List ChunkResult} {g h : ChunkResult → List String}
    (hgh : ∀ c ∈ J, g c = h c) : J.flatMap g = J.flatMap h := by
  induction J with
  | nil => rfl
  | cons c J ih =>
    rw [List.flatMap_cons, List.flatMap_cons, hgh c (by simp),
      ih fun c' h' => hgh c' (by simp [h'])]

theorem flatMap_chunkDetail_nil {J : List ChunkResult}
    (h : ∀ c ∈ J, statusClassOf c.resp.status_code ≠ .success) :
    J.flatMap chunkDetail = [] := by
  induction J with
  | nil => rfl
  | cons c J ih =>
    rw [List.flatMap_cons, chunkDetail_not_success (h c (by simp)),
      List.nil_append]
    exact ih fun c' h' => h c' (by simp [h'])

theorem runPass_transient {t' : List String → WriteResp} {m : ℚ} {st : WriteState}
    (htr : ∀ c, statusClassOf (t' c).status_code = .transient) :
    (runPass t' m st).documents = st.documents ∧
    (runPass t' m st).failed_ids = st.documents ∧
    (runPass t' m st).inserted = st.inserted ∧
    (runPass t' m st).failed_ids_detailed = [] ∧
    (runPass t' m st).cancelled_ids = st.cancelled_ids := by
  rw [runPass_eq]
  set J := multithread t' st.documents st.chunksize with hJ
  have hcl : ∀ c ∈ J, statusClassOf c.resp.status_code = .transient := by
    intro c hc
    rw [(multithread_mem hc).1]
    exact htr c.documents
  have hR : J.flatMap chunkRetrySet = st.documents := by
    rw [flatMap_congr_mem fun c hc => chunkRetrySet_transient (hcl c hc)]
    exact multithread_flatMap_documents t' st.documents st.chunksize
  have hC : J.flatMap chunkCancelSet = [] := by
    rw [flatMap_congr_mem fun c hc =>
      chunkCancelSet_not_giveUp (by rw [hcl c hc]; intro h; cases h)]
    exact List.flatMap_eq_nil_iff.mpr fun c _ => rfl
  have hD : J.flatMap chunkDetail = [] :=
    flatMap_chunkDetail_nil fun c hc => by rw [hcl c hc]; intro h; cases h
  have hI : (J.filter fun c => c.resp.status_code == 200) = [] := by
    apply List.filter_eq_nil_iff.mpr
    intro c hc hbeq
    have h200 : c.resp.status_code = 200 := by
      exact beq_iff_eq.mp hbeq
    have h1 := hcl c hc
    rw [statusClassOf_success.mpr h200] at h1
    cases h1
  refine ⟨?_, hR, ?_, hD, ?_⟩
  · simp only [hR]
    apply List.filter_eq_self.mpr
    intro a ha
    exact decide_eq_true ha
  · rw [hI]
    simp
  · rw [hC]
    simp

theorem writeLoop_transient {t : Nat → List String → WriteResp} {m : ℚ}
    (htr : ∀ i c, statusClassOf (t i c).status_code = .transient) :
    ∀ (n i : Nat) (st : WriteState),
      st.failed_ids = st.documents → st.inserted = [] →
      st.failed_ids_detailed = [] → st.cancelled_ids = [] →
      (writeLoop t m i n st).documents = st.documents ∧
      (writeLoop t m i n st).failed_ids = st.documents ∧
      (writeLoop t m i n st).inserted = [] ∧
      (writeLoop t m i n st).failed_ids_detailed = [] ∧
      (writeLoop t m i n st).cancelled_ids = [] := by
  intro n
  induction n with
  | zero =>
    intro i st hf hi hd hc
    exact ⟨rfl, hf, hi, hd, hc⟩
  | succ n ih =>
    intro i st hf hi hd hc
    by_cases hemp : st.failed_ids = []
    · rw [writeLoop_stop hemp]
      exact ⟨rfl, hf, hi, hd, hc⟩
    · rw [writeLoop, if_neg hemp]
      obtain ⟨p1, p2, p3, p4, p5⟩ := @runPass_transient (t i) m st (htr i)
      have := ih (i + 1) (runPass (t i) m st) (by rw [p1, p2]) (by rw [p3, hi])
        p4 (by rw [p5, hc])
      rw [p1] at this
      exact this

/-- C3: if the transport answers every chunk on every attempt with a
Transient-class status (any code outside 200/400/404/413/524), then after the
retry bound is exhausted — including a bound of zero passes —
`_write_documents` returns the zero inserted count, a `failed_documents` list
equal to the full input id list, and no detailed records: the surviving
documents are reported as data in the result and the function returns
normally rather than raising. -/
theorem c3_transient_exhaustion (t : Nat → List String → WriteResp)
    (documents : List String) (doc_mb : ℚ) (cfg : Config) (m : ℚ) (cs : Int)
    (htr : ∀ i c, statusClassOf (t i c).status_code = .transient) :
    write_documents t documents doc_mb cfg m cs = ⟨0, documents, []⟩ := by
  by_cases hne : documents = []
  · subst hne
    rfl
  · rw [write_documents_eq hne]
    obtain ⟨p1, p2, p3, p4, p5⟩ := writeLoop_transient htr cfg.number_of_retries 0
      (⟨documents,
        if cs = 0 then
          initialChunksize doc_mb cfg.target_chunk_mb cfg.max_chunk_size
            documents.length
        else cs, [], documents, [], [], [], 0⟩ : WriteState) rfl rfl rfl rfl
    unfold write_documents_final
    rw [p2, p3, p4, p5]
    simp

theorem c3_transient_exhaustion_witness :
    (∀ (i : Nat) (c : List String),
      statusClassOf ((fun (_ : Nat) (_ : List String) =>
        (⟨500, 0, []⟩ : WriteResp)) i c).status_code = .transient) ∧
    write_documents (fun _ _ => ⟨500, 0, []⟩) ["a", "b", "c"] 1 ⟨16, 3, 2⟩
        (1/2) 0 = ⟨0, ["a", "b", "c"], []⟩ := by
  refine ⟨fun i c => rfl, ?_⟩
  exact c3_transient_exhaustion _ ["a", "b", "c"] 1 ⟨16, 3, 2⟩ (1/2) 0
    fun i c => rfl

/-! ### Chunk-size arithmetic -/

theorem intTrunc_nonneg {q : ℚ} (h : 0 ≤ q) : 0 ≤ intTrunc q := by
  unfold intTrunc
  rw [if_pos h]
  exact Int.floor_nonneg.mpr h

theorem intTrunc_le_of_le {q : ℚ} {c : Int} (hq : 0 ≤ q) (hqc : q ≤ (c : ℚ)) :
    intTrunc q ≤ c := by
  unfold intTrunc
  rw [if_pos hq]
  calc ⌊q⌋ ≤ ⌊(c : ℚ)⌋ := Int.floor_le_floor hqc
    _ = c := Int.floor_intCast c

theorem shrinkStep_nonneg {m : ℚ} {cs : Int} (hm : 0 ≤ m) (hc : 0 ≤ cs) :
    0 ≤ shrinkStep m cs :=
  intTrunc_nonneg (mul_nonneg (by exact_mod_cast hc) hm)

theorem shrinkStep_le {m : ℚ} {cs : Int} (hm0 : 0 ≤ m) (hm1 : m ≤ 1)
    (hc : 0 ≤ cs) : shrinkStep m cs ≤ cs := by
  have hcq : (0 : ℚ) ≤ (cs : ℚ) := by exact_mod_cast hc
  have h1 : (cs : ℚ) * m ≤ (cs : ℚ) := by
    have := mul_le_mul_of_nonneg_left hm1 hcq
    rw [mul_one] at this
    exact this
  exact intTrunc_le_of_le (mul_nonneg hcq hm0) h1

theorem shrinkStep_iterate_nonneg {m : ℚ} {cs : Int} (hm : 0 ≤ m)
    (hc : 0 ≤ cs) : ∀ k, 0 ≤ (shrinkStep m)^[k] cs := by
  intro k
  induction k generalizing cs with
  | zero => exact hc
  | succ k ih =>
    rw [Function.iterate_succ_apply]
    exact ih (shrinkStep_nonneg hm hc)

theorem shrinkStep_iterate_le {m : ℚ} {cs : Int} (hm0 : 0 ≤ m) (hm1 : m ≤ 1)
    (hc : 0 ≤ cs) : ∀ k, (shrinkStep m)^[k] cs ≤ cs := by
  intro k
  induction k generalizing cs with
  | zero => exact le_refl cs
  | succ k ih =>
    rw [Function.iterate_succ_apply]
    calc (shrinkStep m)^[k] (shrinkStep m cs) ≤ shrinkStep m cs :=
          ih (shrinkStep_nonneg hm0 hc)
      _ ≤ cs := shrinkStep_le hm0 hm1 hc

theorem runPass_chunksize_eq (t' : List String → WriteResp) (m : ℚ)
    (st : WriteState) :
    (runPass t' m st).chunksize =
      (shrinkStep m)^[(multithread t' st.documents st.chunksize).countP
        fun c => decide (statusClassOf c.resp.status_code = .overload)]
        st.chunksize := by
  rw [runPass_eq]

theorem writeLoop_chunksize_nonneg {t : Nat → List String → WriteResp} {m : ℚ}
    (hm : 0 ≤ m) :
    ∀ (n i : Nat) (st : WriteState), 0 ≤ st.chunksize →
      0 ≤ (writeLoop t m i n st).chunksize := by
  intro n
  induction n with
  | zero => intro i st h; exact h
  | succ n ih =>
    intro i st h
    by_cases hf : st.failed_ids = []
    · rw [writeLoop_stop hf]; exact h
    · rw [writeLoop, if_neg hf]
      apply ih
      rw [runPass_chunksize_eq]
      exact shrinkStep_iterate_nonneg hm h _

/-- C4: during a single `_write_documents` call (with the spec's
`retryChunkMultiplier` range `0 ≤ retry_chunk_mult < 1` and a non-negative
starting chunk size) the chunk size never increases: the classification of a
chunk result leaves `chunksize` unchanged unless its status is in
`HALF_CHUNK_CODES` (413/524), in which case — and only then — it is replaced
by `int(chunksize * retry_chunk_mult)`; consequently for every pair of
consecutive retry passes the chunk size of the later pass is at most that of
the earlier pass. -/
theorem c4_chunksize_monotone (m : ℚ) :
    (∀ (acc : PassAcc) (c : ChunkResult),
      c.resp.status_code ∉ HALF_CHUNK_CODES →
      (classify m acc c).chunksize = acc.chunksize) ∧
    (∀ (acc : PassAcc) (c : ChunkResult),
      c.resp.status_code ∈ HALF_CHUNK_CODES →
      (classify m acc c).chunksize = intTrunc ((acc.chunksize : ℚ) * m)) ∧
    (∀ (t : Nat → List String → WriteResp) (i : Nat) (st : WriteState) (k : Nat),
      0 ≤ m → m < 1 → 0 ≤ st.chunksize →
      (writeLoop t m i (k + 1) st).chunksize ≤
        (writeLoop t m i k st).chunksize) := by
  refine ⟨?_, ?_, ?_⟩
  · intro acc c h
    unfold classify
    by_cases h1 : c.resp.status_code ∈ SUCCESS_CODES
    · rw [if_pos h1]
    · rw [if_neg h1]
      by_cases h2 : c.resp.status_code ∈ RETRY_CODES
      · rw [if_pos h2]
      · rw [if_neg h2, if_neg h]
  · intro acc c h
    simp only [HALF_CHUNK_CODES, List.mem_cons, List.mem_singleton,
      List.not_mem_nil, or_false] at h
    rcases h with h | h <;>
      simp [classify, SUCCESS_CODES, RETRY_CODES, HALF_CHUNK_CODES, h]
  · intro t i st k hm0 hm1 hcs
    rw [writeLoop_succ_last]
    by_cases h : (writeLoop t m i k st).failed_ids = []
    · rw [if_pos h]
    · rw [if_neg h, runPass_chunksize_eq]
      exact shrinkStep_iterate_le hm0 (le_of_lt hm1)
        (writeLoop_chunksize_nonneg hm0 k i st hcs) _

theorem c4_chunksize_monotone_witness :
    (((500 : Nat) ∉ HALF_CHUNK_CODES ∧
      (classify 0 ⟨[], [], [], 10⟩ ⟨["a"], ⟨500, 0, []⟩⟩).chunksize = 10) ∧
     ((413 : Nat) ∈ HALF_CHUNK_CODES ∧
      (classify 0 ⟨[], [], [], 10⟩ ⟨["a"], ⟨413, 0, []⟩⟩).chunksize =
        intTrunc ((10 : ℚ) * 0))) ∧
    ((0 : ℚ) ≤ 0 ∧ (0 : ℚ) < 1 ∧
      (0 : Int) ≤ (⟨["a"], 10, [], ["a"], [], [], [], 0⟩ : WriteState).chunksize ∧
      (writeLoop (fun _ _ => ⟨413, 0, []⟩) 0 0 1
          ⟨["a"], 10, [], ["a"], [], [], [], 0⟩).chunksize ≤
        (writeLoop (fun _ _ => ⟨413, 0, []⟩) 0 0 0
          ⟨["a"], 10, [], ["a"], [], [], [], 0⟩).chunksize) := by
  refine ⟨⟨⟨by decide, ?_⟩, ⟨by decide, ?_⟩⟩, le_refl 0, zero_lt_one, by decide, ?_⟩
  · exact (c4_chunksize_monotone 0).1 ⟨[], [], [], 10⟩ ⟨["a"], ⟨500, 0, []⟩⟩
      (by decide)
  · exact (c4_chunksize_monotone 0).2.1 ⟨[], [], [], 10⟩ ⟨["a"], ⟨413, 0, []⟩⟩
      (by decide)
  · exact (c4_chunksize_monotone 0).2.2 (fun _ _ => ⟨413, 0, []⟩) 0
      ⟨["a"], 10, [], ["a"], [], [], [], 0⟩ 0 (le_refl 0) zero_lt_one (by decide)

/-- C10: within a single retry pass the chunk-size reduction is applied once
per overloaded chunk, not once per pass: the chunk size entering the next pass
equals `k` successive applications of `int(chunksize * retry_chunk_mult)` to
the current chunk size, where `k` counts the Overload-class (413/524) chunk
results of the pass; with enough overloaded chunks it reaches zero, e.g. seven
successive halvings take 100 to 0. -/
theorem c10_per_chunk_shrink :
    (∀ (t' : List String → WriteResp) (m : ℚ) (st : WriteState),
      (runPass t' m st).chunksize =
        (shrinkStep m)^[(multithread t' st.documents st.chunksize).countP
          fun c => decide (statusClassOf c.resp.status_code = .overload)]
          st.chunksize) ∧
    (shrinkStep (1/2))^[7] (100 : Int) = 0 ∧ (0 : Int) < 100 := by
  refine ⟨runPass_chunksize_eq, ?_, by decide⟩
  norm_num [Function.iterate_succ_apply, shrinkStep, intTrunc]

/-! ### C2: status-class mapping and permanence of cancellation -/

theorem chunkSizeStep_overload {c : ChunkResult}
    (h : statusClassOf c.resp.status_code = .overload) (m : ℚ) (cs : Int) :
    chunkSizeStep m c cs = shrinkStep m cs := by
  unfold chunkSizeStep
  rw [h]

theorem chunkSizeStep_not_overload {c : ChunkResult}
    (h : statusClassOf c.resp.status_code ≠ .overload) (m : ℚ) (cs : Int) :
    chunkSizeStep m c cs = cs := by
  unfold chunkSizeStep
  rcases hs : statusClassOf c.resp.status_code with _ | _ | _ | _ <;> simp_all

theorem runPass_sent (t' : List String → WriteResp) (m : ℚ) (st : WriteState) :
    (runPass t' m st).sent = st.sent ++ st.documents := by
  rw [runPass_eq]

theorem runPass_cancelled (t' : List String → WriteResp) (m : ℚ)
    (st : WriteState) :
    (runPass t' m st).cancelled_ids = st.cancelled_ids ++
      (multithread t' st.documents st.chunksize).flatMap chunkCancelSet := by
  rw [runPass_eq]

theorem writeLoop_cancelled_not_resent {t : Nat → List String → WriteResp}
    {m : ℚ} {D0 : List String} (hok : RespOkAll t) :
    ∀ (n i : Nat) (st : WriteState), LoopInv D0 st → ∀ x ∈ st.cancelled_ids,
      (writeLoop t m i n st).sent.count x = st.sent.count x := by
  intro n
  induction n with
  | zero => intro i st _ x _; rfl
  | succ n ih =>
    intro i st hinv x hx
    by_cases hf : st.failed_ids = []
    · rw [writeLoop_stop hf]
    · rw [writeLoop, if_neg hf]
      have hnotdoc : x ∉ st.documents := by
        intro hxd
        exact hinv.2.2.2.1 x hx (hinv.2.1.mem_iff.mp hxd)
      have hx' : x ∈ (runPass (t i) m st).cancelled_ids := by
        rw [runPass_cancelled]
        exact List.mem_append_left _ hx
      rw [ih (i + 1) _ (runPass_inv (hok i) hinv) x hx', runPass_sent,
        List.count_append, List.count_eq_zero.mpr hnotdoc, Nat.add_zero]

/-- C2: the processing of every chunk-write result follows the spec's
status-class mapping — after a pass the retry set is exactly the concatenation
over the pass's chunk results of: the response's own failed-document ids for
status 200, nothing for 400/404 (whose chunk ids all move to the cancelled
set), and the whole chunk for 413/524 or any other status; status-200 results
are the only ones whose `inserted` counts accumulate; 413/524 is the only
class that touches the chunk size, replacing it by
`int(chunksize * retry_chunk_mult)`; and an id cancelled by pass `k` is never
dispatched to the transport in any later pass (its ghost send count never
grows after pass `k`). -/
theorem c2_status_class_mapping :
    (∀ (t' : List String → WriteResp) (m : ℚ) (st : WriteState),
      (runPass t' m st).failed_ids =
        (multithread t' st.documents st.chunksize).flatMap chunkRetrySet ∧
      (runPass t' m st).cancelled_ids = st.cancelled_ids ++
        (multithread t' st.documents st.chunksize).flatMap chunkCancelSet ∧
      (runPass t' m st).inserted.sum = st.inserted.sum +
        ((multithread t' st.documents st.chunksize).map chunkInserted).sum) ∧
    (∀ c : ChunkResult,
      (c.resp.status_code = 200 →
        chunkRetrySet c = c.resp.failed_documents.map (·.id) ∧
        chunkCancelSet c = [] ∧ chunkInserted c = c.resp.inserted ∧
        ∀ (m : ℚ) (cs : Int), chunkSizeStep m c cs = cs) ∧
      (c.resp.status_code = 400 ∨ c.resp.status_code = 404 →
        chunkCancelSet c = c.documents ∧ chunkRetrySet c = [] ∧
        ∀ (m : ℚ) (cs : Int), chunkSizeStep m c cs = cs) ∧
      (c.resp.status_code = 413 ∨ c.resp.status_code = 524 →
        chunkRetrySet c = c.documents ∧ chunkCancelSet c = [] ∧
        ∀ (m : ℚ) (cs : Int), chunkSizeStep m c cs = intTrunc ((cs : ℚ) * m)) ∧
      (statusClassOf c.resp.status_code = .transient →
        chunkRetrySet c = c.documents ∧ chunkCancelSet c = [] ∧
        ∀ (m : ℚ) (cs : Int), chunkSizeStep m c cs = cs)) ∧
    (∀ (t : Nat → List String → WriteResp) (m : ℚ) (D0 : List String)
        (st0 : WriteState) (k n : Nat) (x : String),
      RespOkAll t → LoopInv D0 st0 → k ≤ n →
      x ∈ (writeLoop t m 0 k st0).cancelled_ids →
      (writeLoop t m 0 n st0).sent.count x =
        (writeLoop t m 0 k st0).sent.count x) := by
  refine ⟨?_, ?_, ?_⟩
  · intro t' m st
    rw [runPass_eq]
    refine ⟨rfl, rfl, ?_⟩
    simp only [List.sum_append, inserted_sum_eq]
  · intro c
    refine ⟨?_, ?_, ?_, ?_⟩
    · intro h
      have hs : statusClassOf c.resp.status_code = .success :=
        statusClassOf_success.mpr h
      exact ⟨chunkRetrySet_success hs,
        chunkCancelSet_not_giveUp (by rw [hs]; intro hh; cases hh),
        chunkInserted_success hs,
        chunkSizeStep_not_overload (by rw [hs]; intro hh; cases hh)⟩
    · intro h
      have hs : statusClassOf c.resp.status_code = .giveUp :=
        statusClassOf_giveUp.mpr h
      exact ⟨chunkCancelSet_giveUp hs, chunkRetrySet_giveUp hs,
        chunkSizeStep_not_overload (by rw [hs]; intro hh; cases hh)⟩
    · intro h
      have hs : statusClassOf c.resp.status_code = .overload :=
        statusClassOf_overload.mpr h
      exact ⟨chunkRetrySet_overload hs,
        chunkCancelSet_not_giveUp (by rw [hs]; intro hh; cases hh),
        chunkSizeStep_overload hs⟩
    · intro hs
      exact ⟨chunkRetrySet_transient hs,
        chunkCancelSet_not_giveUp (by rw [hs]; intro hh; cases hh),
        chunkSizeStep_not_overload (by rw [hs]; intro hh; cases hh)⟩
  · intro t m D0 st0 k n x hok hinv hkn hx
    rw [show n = k + (n - k) from by omega, writeLoop_add, Nat.zero_add]
    exact writeLoop_cancelled_not_resent hok (n - k) k _
      (writeLoop_inv hok k 0 st0 hinv) x hx

theorem c2_status_class_mapping_witness :
    (RespOkAll (fun (_ : Nat) (c : List String) =>
        (⟨200, c.length, []⟩ : WriteResp)) ∧
      LoopInv ["a", "b"] ⟨["a"], 1, [], ["a"], [], ["b"], [], 0⟩ ∧
      (0 : Nat) ≤ 1 ∧
      "b" ∈ (writeLoop (fun _ c => ⟨200, c.length, []⟩) (1/2) 0 0
        ⟨["a"], 1, [], ["a"], [], ["b"], [], 0⟩).cancelled_ids) ∧
    (writeLoop (fun _ c => ⟨200, c.length, []⟩) (1/2) 0 1
        ⟨["a"], 1, [], ["a"], [], ["b"], [], 0⟩).sent.count "b" =
      (writeLoop (fun _ c => ⟨200, c.length, []⟩) (1/2) 0 0
        ⟨["a"], 1, [], ["a"], [], ["b"], [], 0⟩).sent.count "b" := by
  have hok : RespOkAll (fun (_ : Nat) (c : List String) =>
      (⟨200, c.length, []⟩ : WriteResp)) :=
    fun i chunk h => ⟨by simp, by simp, by simp⟩
  have hinv : LoopInv ["a", "b"] ⟨["a"], 1, [], ["a"], [], ["b"], [], 0⟩ := by
    unfold LoopInv
    refine ⟨by decide, List.Perm.refl _, by decide, by decide, by decide,
      by decide, by decide⟩
  refine ⟨⟨hok, hinv, by decide, by decide⟩, ?_⟩
  exact c2_status_class_mapping.2.2 (fun _ c => ⟨200, c.length, []⟩) (1/2)
    ["a", "b"] ⟨["a"], 1, [], ["a"], [], ["b"], [], 0⟩ 0 1 "b" hok hinv
    (by decide) (by decide)

/-! ### C9: provenance of `failed_ids_detailed` -/

/-- The documents of a chunk whose result is not Success-class. -/
def nonSuccessDocs (c : ChunkResult) : List String :=
  match statusClassOf c.resp.status_code with
  | .success => []
  | _ => c.documents

theorem nonSuccessDocs_success {c : ChunkResult}
    (h : statusClassOf c.resp.status_code = .success) : nonSuccessDocs c = [] := by
  unfold nonSuccessDocs
  rw [h]

theorem nonSuccessDocs_not_success {c : ChunkResult}
    (h : statusClassOf c.resp.status_code ≠ .success) :
    nonSuccessDocs c = c.documents := by
  unfold nonSuccessDocs
  rcases hs : statusClassOf c.resp.status_code with _ | _ | _ | _ <;> simp_all

theorem chunkDetail_ids_sublist (c : ChunkResult) :
    ((chunkDetail c).map (·.id)).Sublist (chunkRetrySet c) := by
  by_cases hs : statusClassOf c.resp.status_code = .success
  · rw [chunkDetail_success hs, chunkRetrySet_success hs]
  · rw [chunkDetail_not_success hs]
    exact List.nil_sublist _

theorem runPass_detailed (t' : List String → WriteResp) (m : ℚ)
    (st : WriteState) :
    (runPass t' m st).failed_ids_detailed =
      (multithread t' st.documents st.chunksize).flatMap chunkDetail := by
  rw [runPass_eq]

theorem writeLoop_detailed_in_failed {t : Nat → List String → WriteResp} {m : ℚ} :
    ∀ (n i : Nat) (st : WriteState),
      (∀ f ∈ st.failed_ids_detailed, f.id ∈ st.failed_ids) →
      ∀ f ∈ (writeLoop t m i n st).failed_ids_detailed,
        f.id ∈ (writeLoop t m i n st).failed_ids := by
  intro n
  induction n with
  | zero => intro i st h; exact h
  | succ n ih =>
    intro i st h
    by_cases hf : st.failed_ids = []
    · rw [writeLoop_stop hf]; exact h
    · rw [writeLoop, if_neg hf]
      apply ih
      intro f hfd
      rw [runPass_detailed] at hfd
      rcases List.mem_flatMap.mp hfd with ⟨c, hc, hfc⟩
      rw [runPass_eq]
      apply List.mem_flatMap.mpr ⟨c, hc, ?_⟩
      have hid : f.id ∈ (chunkDetail c).map (·.id) :=
        List.mem_map_of_mem _ hfc
      exact (chunkDetail_ids_sublist c).subset hid

/-- C9: `failed_ids_detailed` is rebuilt from scratch at every retry pass —
its value after a pass does not depend on its previous value — and it is
populated only from Success-class (status 200) responses: after any pass it
equals the concatenated failure records of that pass's 200-responses, the
final list is verbatim the record list of a single (the last executed) pass or
the initial empty list, and ids whose chunk was classified 400/404, 413/524 or
transient in a pass have no record from that pass, while ids cancelled during
the run never appear among the final detailed records at all. -/
theorem c9_detailed_provenance :
    (∀ (t' : List String → WriteResp) (m : ℚ) (st : WriteState),
      (runPass t' m st).failed_ids_detailed =
        (multithread t' st.documents st.chunksize).flatMap chunkDetail) ∧
    (∀ (t' : List String → WriteResp) (m : ℚ) (st : WriteState)
        (dtl : List FailedDoc),
      (runPass t' m { st with failed_ids_detailed := dtl }).failed_ids_detailed =
        (runPass t' m st).failed_ids_detailed) ∧
    (∀ (t' : List String → WriteResp) (m : ℚ) (st : WriteState),
      st.documents.Nodup → RespOk t' →
      ∀ cr ∈ multithread t' st.documents st.chunksize,
        statusClassOf cr.resp.status_code ≠ .success →
        ∀ x ∈ cr.documents,
          x ∉ ((runPass t' m st).failed_ids_detailed.map (·.id))) ∧
    (∀ (t : Nat → List String → WriteResp) (m : ℚ) (i n : Nat) (st : WriteState),
      (writeLoop t m i n st).failed_ids_detailed = st.failed_ids_detailed ∨
      ∃ (j : Nat) (docs : List String) (cs : Int),
        (writeLoop t m i n st).failed_ids_detailed =
          (multithread (t j) docs cs).flatMap chunkDetail) ∧
    (∀ (t : Nat → List String → WriteResp) (documents : List String)
        (doc_mb : ℚ) (cfg : Config) (m : ℚ) (cs : Int),
      documents.Nodup → RespOkAll t →
      ∀ f ∈ (write_documents_final t documents doc_mb cfg m cs).failed_ids_detailed,
        f.id ∈ (write_documents_final t documents doc_mb cfg m cs).failed_ids ∧
        f.id ∉ (write_documents_final t documents doc_mb cfg m cs).cancelled_ids) := by
  refine ⟨runPass_detailed, ?_, ?_, ?_, ?_⟩
  · intro t' m st dtl
    rw [runPass_detailed, runPass_detailed]
  · intro t' m st hnd hok cr hcr hns x hx
    rw [runPass_detailed, List.map_flatMap]
    set J := multithread t' st.documents st.chunksize with hJ
    have hmem : ∀ c ∈ J, c.resp = t' c.documents := fun c hc =>
      (multithread_mem hc).1
    have hpw : (J.map ChunkResult.documents).Pairwise List.Disjoint :=
      multithread_pairwise_disjoint hnd _
    have hsubg : ∀ c ∈ J, ∀ y ∈ nonSuccessDocs c, y ∈ c.documents := by
      intro c hc y hy
      by_cases hs : statusClassOf c.resp.status_code = .success
      · rw [nonSuccessDocs_success hs] at hy
        cases hy
      · rw [nonSuccessDocs_not_success hs] at hy
        exact hy
    have hsubh : ∀ c ∈ J, ∀ y ∈ (chunkDetail c).map (·.id), y ∈ c.documents := by
      intro c hc y hy
      exact chunkRetrySet_subset hok (hmem c hc) y
        ((chunkDetail_ids_sublist c).subset hy)
    have hexcl : ∀ c : ChunkResult,
        nonSuccessDocs c = [] ∨ (chunkDetail c).map (·.id) = [] := by
      intro c
      by_cases hs : statusClassOf c.resp.status_code = .success
      · exact Or.inl (nonSuccessDocs_success hs)
      · exact Or.inr (by rw [chunkDetail_not_success hs]; rfl)
    have hxg : x ∈ J.flatMap nonSuccessDocs :=
      List.mem_flatMap.mpr ⟨cr, hcr, by rw [nonSuccessDocs_not_success hns]; exact hx⟩
    exact flatMap_disjoint hsubg hsubh hexcl hpw x hxg
  · intro t m i n st
    induction n generalizing i st with
    | zero => exact Or.inl rfl
    | succ n ih =>
      by_cases hf : st.failed_ids = []
      · rw [writeLoop_stop hf]
        exact Or.inl rfl
      · rw [writeLoop, if_neg hf]
        rcases ih (i + 1) (runPass (t i) m st) with h | h
        · rw [h, runPass_detailed]
          exact Or.inr ⟨i, st.documents, st.chunksize, rfl⟩
        · exact Or.inr h
  · intro t documents doc_mb cfg m cs hnd hok f hf
    have hffail : f.id ∈ (write_documents_final t documents doc_mb cfg m cs).failed_ids := by
      unfold write_documents_final at hf ⊢
      exact writeLoop_detailed_in_failed cfg.number_of_retries 0 _
        (by intro f' hf'; cases hf') f hf
    refine ⟨hffail, ?_⟩
    intro hcanc
    exact (@write_documents_final_inv t documents doc_mb cfg m cs hnd
      hok).2.2.2.1 f.id hcanc hffail

theorem c9_detailed_provenance_witness :
    ((⟨["a"], 1, [], ["a"], [], [], [], 0⟩ : WriteState).documents.Nodup ∧
      RespOk (fun _ => ⟨500, 0, []⟩) ∧
      (⟨["a"], ⟨500, 0, []⟩⟩ : ChunkResult) ∈
        multithread (fun _ => ⟨500, 0, []⟩)
          (⟨["a"], 1, [], ["a"], [], [], [], 0⟩ : WriteState).documents
          (⟨["a"], 1, [], ["a"], [], [], [], 0⟩ : WriteState).chunksize ∧
      statusClassOf (⟨["a"], ⟨500, 0, []⟩⟩ : ChunkResult).resp.status_code ≠
        .success ∧
      "a" ∈ (⟨["a"], ⟨500, 0, []⟩⟩ : ChunkResult).documents) ∧
    "a" ∉ ((runPass (fun _ => ⟨500, 0, []⟩) (1/2)
        ⟨["a"], 1, [], ["a"], [], [], [], 0⟩).failed_ids_detailed.map (·.id)) := by
  have hok : RespOk (fun _ => (⟨500, 0, []⟩ : WriteResp)) := by
    intro chunk h
    simp at h
  refine ⟨⟨by decide, hok, by decide, by decide, by decide⟩, ?_⟩
  exact c9_detailed_provenance.2.2.1 (fun _ => ⟨500, 0, []⟩) (1/2)
    ⟨["a"], 1, [], ["a"], [], [], [], 0⟩ (by decide) hok
    ⟨["a"], ⟨500, 0, []⟩⟩ (by decide) (by decide) "a" (by decide)

/-! ### C5: initial sizing -/

/-- C5 counterexample: with one document (`len(documents) = 1`), probe size
1 MB, `upload.target_chunk_mb = 16` and `upload.max_chunk_size = 100`, the
`chunksize = 0` auto-sizing of `_write_documents` produces 100, which exceeds
`len(documents)`: the claimed "at most `len(documents)`" clamp does not hold
because `max(chunksize, max_chunk_size)` is applied after the length cap. -/
theorem c5_initial_sizing_counterexample :
    (write_documents_final (fun _ _ => ⟨200, 0, []⟩) ["x"] 1 ⟨16, 100, 0⟩
      (1/2) 0).chunksize = 100 ∧
    ¬((write_documents_final (fun _ _ => ⟨200, 0, []⟩) ["x"] 1 ⟨16, 100, 0⟩
        (1/2) 0).chunksize ≤ ((["x"] : List String).length : Int)) := by
  have h : (write_documents_final (fun _ _ => ⟨200, 0, []⟩) ["x"] 1 ⟨16, 100, 0⟩
      (1/2) 0).chunksize = 100 := by
    show initialChunksize 1 16 100 1 = 100
    norm_num [initialChunksize, intTrunc]
  refine ⟨h, ?_⟩
  rw [h]
  decide

/-- C5 amended: with `chunksize = 0` the initial chunk size is
`int(target_chunk_mb / doc_mb) + 1` first capped at `len(documents)` and then
raised to at least `upload.max_chunk_size` (so the two-sided clamp of the
claim holds exactly when the configured minimum is at most `len(documents)`;
otherwise the result is the configured minimum and exceeds `len(documents)`);
a caller-supplied non-zero chunksize is used as given, bypassing the probe. -/
theorem c5_initial_sizing_amended :
    (∀ (doc_mb : ℚ) (tmb mcs : Int) (n : Nat),
      initialChunksize doc_mb tmb mcs n =
        max (min (intTrunc ((tmb : ℚ) / doc_mb) + 1) (n : Int)) mcs) ∧
    (∀ (doc_mb : ℚ) (tmb mcs : Int) (n : Nat), mcs ≤ (n : Int) →
      mcs ≤ initialChunksize doc_mb tmb mcs n ∧
      initialChunksize doc_mb tmb mcs n ≤ (n : Int)) ∧
    (∀ (t : Nat → List String → WriteResp) (documents : List String)
        (doc_mb : ℚ) (cfg : Config) (m : ℚ) (cs : Int), cs ≠ 0 →
      write_documents_final t documents doc_mb cfg m cs =
        writeLoop t m 0 cfg.number_of_retries
          ⟨documents, cs, [], documents, [], [], [], 0⟩) := by
  have hmain : ∀ (doc_mb : ℚ) (tmb mcs : Int) (n : Nat),
      initialChunksize doc_mb tmb mcs n =
        max (min (intTrunc ((tmb : ℚ) / doc_mb) + 1) (n : Int)) mcs := by
    intro doc_mb tmb mcs n
    simp only [initialChunksize]
    by_cases h : intTrunc ((tmb : ℚ) / doc_mb) + 1 < (n : Int)
    · rw [if_pos h, min_eq_left (le_of_lt h)]
    · rw [if_neg h, min_eq_right (by omega)]
  refine ⟨hmain, ?_, ?_⟩
  · intro doc_mb tmb mcs n hmn
    rw [hmain]
    exact ⟨le_max_right _ _, max_le (le_trans (min_le_right _ _) le_rfl) hmn⟩
  · intro t documents doc_mb cfg m cs hcs
    unfold write_documents_final
    rw [if_neg hcs]

theorem c5_initial_sizing_amended_witness :
    ((3 : Int) ≤ ((5 : Nat) : Int) ∧
      (3 : Int) ≤ initialChunksize 1 16 3 5 ∧ initialChunksize 1 16 3 5 ≤ 5) ∧
    ((1 : Int) ≠ 0 ∧
      write_documents_final (fun _ _ => ⟨200, 0, []⟩) ["x"] 1 ⟨16, 3, 2⟩ (1/2) 1 =
        writeLoop (fun _ _ => ⟨200, 0, []⟩) (1/2) 0 (⟨16, 3, 2⟩ : Config).number_of_retries
          ⟨["x"], 1, [], ["x"], [], [], [], 0⟩) := by
  refine ⟨⟨by decide, ?_⟩, by decide, ?_⟩
  · exact c5_initial_sizing_amended.2.1 1 16 3 5 (by decide)
  · exact c5_initial_sizing_amended.2.2 (fun _ _ => ⟨200, 0, []⟩) ["x"] 1
      ⟨16, 3, 2⟩ (1/2) 1 (by decide)

/-! ### C8: one GiveUp document among five -/

/-- C8: for a batch of five distinct documents dispatched in single-document
chunks where exactly the chunk of document `c` receives HTTP 400 (GiveUp) and
every other chunk succeeds, `_write_documents` returns inserted = 4 with
`failed_documents = [c]` and no detailed record; `c` is in the cancelled set
right after the very first pass, is dispatched to the transport exactly once
in the whole run (never retried), and the run performs exactly the five
first-pass transport calls. -/
theorem c8_giveup_among_five (a b c d e : String)
    (hnd : ([a, b, c, d, e] : List String).Nodup) :
    write_documents
        (fun _ ch => if ch = [c] then ⟨400, 0, []⟩ else ⟨200, ch.length, []⟩)
        [a, b, c, d, e] 1 ⟨16, 3, 3⟩ (1/2) 1 = ⟨4, [c], []⟩ ∧
    (writeLoop
        (fun _ ch => if ch = [c] then ⟨400, 0, []⟩ else ⟨200, ch.length, []⟩)
        (1/2) 0 1 ⟨[a, b, c, d, e], 1, [], [a, b, c, d, e], [], [], [], 0⟩
      ).cancelled_ids = [c] ∧
    (write_documents_final
        (fun _ ch => if ch = [c] then ⟨400, 0, []⟩ else ⟨200, ch.length, []⟩)
        [a, b, c, d, e] 1 ⟨16, 3, 3⟩ (1/2) 1).sent.count c = 1 ∧
    write_documents_calls
        (fun _ ch => if ch = [c] then ⟨400, 0, []⟩ else ⟨200, ch.length, []⟩)
        [a, b, c, d, e] 1 ⟨16, 3, 3⟩ (1/2) 1 = 5 := by
  simp only [List.nodup_cons, List.mem_cons, List.not_mem_nil, or_false,
    not_or] at hnd
  obtain ⟨⟨hab, hac, had, hae⟩, ⟨hbc, hbd, hbe⟩, ⟨hcd, hce⟩, hde, -⟩ := hnd
  have h1 : ([a] : List String) ≠ [c] := by simp [hac]
  have h2 : ([b] : List String) ≠ [c] := by simp [hbc]
  have h4 : ([d] : List String) ≠ [c] := by
    simp only [ne_eq, List.cons.injEq, and_true]
    exact fun h => hcd h.symm
  have h5 : ([e] : List String) ≠ [c] := by
    simp only [ne_eq, List.cons.injEq, and_true]
    exact fun h => hce h.symm
  refine ⟨?_, ?_, ?_, ?_⟩ <;>
    simp [write_documents, write_documents_final, write_documents_calls,
      writeLoop, runPass, multithread, chunkList, chunkListAux, classify,
      SUCCESS_CODES, RETRY_CODES, HALF_CHUNK_CODES, h1, h2, h4, h5,
      List.count_cons, hac, hbc, hcd, hce, beq_iff_eq]

theorem c8_giveup_among_five_witness :
    (["a", "b", "c", "d", "e"] : List String).Nodup ∧
    write_documents
        (fun _ ch => if ch = ["c"] then ⟨400, 0, []⟩ else ⟨200, ch.length, []⟩)
        ["a", "b", "c", "d", "e"] 1 ⟨16, 3, 3⟩ (1/2) 1 = ⟨4, ["c"], []⟩ := by
  refine ⟨by decide, ?_⟩
  exact (c8_giveup_among_five "a" "b" "c" "d" "e" (by decide)).1
